import Mathlib

/-!
Verification of the request-dispatch and session pipeline of the
`FelipeABG/web-framework` Rust repository, as a shallow embedding.

Rust strings are modelled as Lean `String`; the character-level operations of
the Rust standard library that the code uses (`split`, `lines`, `contains`,
`parse::<usize>`) are modelled over `List Char` (`String.data`).  Stateful
structures (`Sessions`, `Routes`) are modelled by explicit state passing.
Panics are modelled by `Option`/`none` results.
-/

namespace WebFramework

/-! ### Character-list primitives (model of the `str` methods the code uses) -/

/-- Model of Rust `str::split(sep)` for a one-character separator, over the
character list of the string.  Always returns a non-empty list of segments;
splitting the empty string yields `[[]]`, matching Rust. -/
def splitOnC (sep : Char) : List Char → List (List Char)
  | [] => [[]]
  | c :: rest =>
    let r := splitOnC sep rest
    if c = sep then [] :: r
    else
      match r with
      | [] => [[c]]
      | h :: t => (c :: h) :: t

/-- Test whether `p` is an initial segment of `l`. -/
def startsWithC : List Char → List Char → Bool
  | _, [] => true
  | [], _ :: _ => false
  | c :: cs, d :: ds => c = d && startsWithC cs ds

/-- Model of Rust `str::contains(sub)`: substring occurrence test. -/
def hasSub (l sub : List Char) : Bool :=
  startsWithC l sub ||
    match l with
    | [] => false
    | _ :: rest => hasSub rest sub

/-- The characters strictly after the first occurrence of `sep`, when `sep`
occurs at all. -/
def afterFirstC (sep : Char) : List Char → Option (List Char)
  | [] => none
  | c :: rest => if c = sep then some rest else afterFirstC sep rest

/-- Strip one trailing carriage return, as Rust `str::lines` does on
`\r\n`-terminated lines. -/
def stripCR (l : List Char) : List Char :=
  match l.getLast? with
  | some c => if c = '\r' then l.dropLast else l
  | none => l

/-- Helper for `rustLinesC`: every segment except the last was terminated by a
newline (so a trailing `\r` is stripped from it); the final segment is dropped
when empty (optional final line ending) and kept verbatim otherwise. -/
def rustLinesAux : List (List Char) → List (List Char)
  | [] => []
  | [last] => if last = [] then [] else [last]
  | seg :: rest => stripCR seg :: rustLinesAux rest

/-- Model of Rust `str::lines()`. -/
def rustLinesC (l : List Char) : List (List Char) :=
  rustLinesAux (splitOnC '\n' l)

/-- Numeric value of a list of decimal digits. -/
def digitsToNat (l : List Char) : Nat :=
  l.foldl (fun acc c => acc * 10 + (c.toNat - 48)) 0

/-- Model of Rust `str::parse::<usize>()` on a 64-bit target: an optional
leading `+`, then at least one ASCII digit and nothing else, with the value
required to fit in 64 bits; every other input is a parse error (`none`). -/
def parseUsizeC (l : List Char) : Option Nat :=
  let ds := match l with
    | '+' :: rest => rest
    | _ => l
  if ds.isEmpty then none
  else if ds.all Char.isDigit then
    let n := digitsToNat ds
    if n < 2 ^ 64 then some n else none
  else none

/-! ### Data model: methods, type-erased session values, sessions

Rust `Box<dyn Any>` with `downcast_ref` is modelled by a small closed universe
of type tags paired with a value of the denoted type; the downcast succeeds
exactly when the tag matches the requested type. -/

/-- Model of `src/src/connection/method.rs`: the HTTP methods the server supports. -/
inductive Method
  | GET
  | POST
deriving DecidableEq

/-- Closed universe of value types storable in a session (model of `dyn Any`). -/
inductive Ty
  | nat
  | int
  | str
  | bool
deriving DecidableEq

/-- Denotation of a type tag. -/
@[reducible] def Ty.denote : Ty → Type
  | .nat => Nat
  | .int => Int
  | .str => String
  | .bool => Bool

/-- A type-erased value: a tag together with a value of the denoted type
(model of `Box<dyn Any>`). -/
structure AnyVal where
  ty : Ty
  val : ty.denote

/-- Model of `downcast_ref::<T>`: returns the stored value exactly when the
stored type matches the requested one. -/
def AnyVal.downcast (a : AnyVal) (t : Ty) : Option t.denote :=
  if h : a.ty = t then some (h ▸ a.val) else none

/-- Model of `Session` (`src/src/connection/session.rs`): a `HashMap<String, Box<dyn
Any>>`, modelled as an association list where insertion prepends and lookup
takes the first match (observably the hash map's overwrite semantics). -/
structure Session where
  data : List (String × AnyVal)

/-- Model of `Session::new`. -/
def Session.new : Session := ⟨[]⟩

/-- Model of `Session::add`: `self.data.insert(key, Box::new(value))` — overwrites any
prior value at the key, whatever its type. -/
def Session.add (s : Session) (key : String) (value : AnyVal) : Session :=
  ⟨(key, value) :: s.data⟩

/-- Model of `Session::get::<T>`: `self.data.get(key)?.downcast_ref()`. -/
def Session.get (s : Session) (key : String) (t : Ty) : Option t.denote :=
  match s.data.find? (fun p => p.1 == key) with
  | some p => p.2.downcast t
  | none => none

/-- Model of `Sessions`: a `HashMap<usize, Session>` plus the allocation counter. -/
structure Sessions where
  sessions : List (Nat × Session)
  counter : Nat

/-- Model of `Sessions::new`. -/
def Sessions.new : Sessions := ⟨[], 0⟩

/-- Model of `Sessions::contains`. -/
def Sessions.contains (s : Sessions) (id : Nat) : Bool :=
  (s.sessions.find? (fun p => p.1 == id)).isSome

/-- Model of `Sessions::add`: inserts a fresh empty session under `counter`, increments
the counter, and returns the previous counter value (the new id). -/
def Sessions.add (s : Sessions) : Nat × Sessions :=
  (s.counter, ⟨(s.counter, Session.new) :: s.sessions, s.counter + 1⟩)

/-- Model of `Sessions::get`: `self.sessions.get_mut(&key).unwrap()`.  The `unwrap`
panic on a missing id is modelled by `none`. -/
def Sessions.get (s : Sessions) (key : Nat) : Option Session :=
  (s.sessions.find? (fun p => p.1 == key)).map (fun p => p.2)

/-- Replace the value stored under `key`, leaving the list unchanged when the
key is absent: the write-back of the handler's mutation through the `&mut
Session` handed out by `Sessions::get`. -/
def replaceSession : List (Nat × Session) → Nat → Session → List (Nat × Session)
  | [], _, _ => []
  | p :: rest, key, v =>
    if p.1 == key then (key, v) :: rest else p :: replaceSession rest key v

/-- The session store after the handler's in-place mutation of the session
fetched under `key`. -/
def Sessions.setS (s : Sessions) (key : Nat) (v : Session) : Sessions :=
  ⟨replaceSession s.sessions key v, s.counter⟩

/-! ### Requests -/

/-- Model of `Request` (`src/src/connection/request.rs`). -/
structure Request where
  resource : String
  method : Method
  header : String
  body : Option String
  session : Option Nat

/-- The literal `session_id` scanned for in header lines. -/
def sidPat : List Char := "session_id".data

/-- One step of `Request::get_session`: the per-line extraction
`line.split("=").nth(1).map(|id| id.parse().unwrap_or(100000000000))`. -/
def sessionOfLine (line : List Char) : Option Nat :=
  match splitOnC '=' line with
  | _ :: portion :: _ => some ((parseUsizeC portion).getD 100000000000)
  | _ => none

/-- The loop of `Request::get_session`: return on the first line containing
`session_id`, otherwise keep scanning. -/
def get_session_go : List (List Char) → Option Nat
  | [] => none
  | line :: rest =>
    if hasSub line sidPat then sessionOfLine line else get_session_go rest

/-- Model of `Request::get_session` (`src/src/connection/request.rs`, lines 175–185). -/
def Request.get_session (header_str : String) : Option Nat :=
  get_session_go (rustLinesC header_str.data)

/-! ### Form decoding -/

/-- Per-pair step of `from_forms`: `pair.split("=")`, then `parts[0]` and
`parts[1]`.  The out-of-bounds panic on `parts[1]` when the pair has no `=` is
modelled by `none`. -/
def splitPair (pair : List Char) : Option (String × String) :=
  match splitOnC '=' pair with
  | a :: b :: _ => some (String.mk a, String.mk b)
  | _ => none

/-- The form mapping: an association list where insertion prepends and lookup
takes the first match, the observable behavior of collecting into a
`HashMap` (later inserts overwrite earlier ones). -/
abbrev HMap := List (String × String)

/-- Hash-map insertion (last write wins under `HMap.findV`). -/
def HMap.insertKV (m : HMap) (k v : String) : HMap := (k, v) :: m

/-- Hash-map lookup. -/
def HMap.findV (m : HMap) (k : String) : Option String :=
  (m.find? (fun p => p.1 == k)).map (fun p => p.2)

/-- The fold of `from_forms` over the `&`-separated pairs; a pair without `=`
aborts with the out-of-bounds panic (`none`). -/
def from_forms_go : List (List Char) → HMap → Option HMap
  | [], m => some m
  | p :: ps, m =>
    match splitPair p with
    | some kv => from_forms_go ps (HMap.insertKV m kv.1 kv.2)
    | none => none

/-- Model of `from_forms` (`src/src/connection/request.rs`, lines 211–218). -/
def from_forms (body : String) : Option HMap :=
  from_forms_go (splitOnC '&' body.data) []

/-! ### Routing (`src/src/routing.rs`) -/

/-- A route handler: `fn(Request, &mut Session) -> String`, modelled as a
function returning the body together with the mutated session. -/
def Handler := Request → Session → String × Session

/-- Model of `Route`. -/
structure Route where
  path : String
  handler : Handler

/-- Model of `Route::new`. -/
def Route.new (path : String) (handler : Handler) : Route := ⟨path, handler⟩

/-- Model of `Routes`: the vector of registered routes. -/
structure Routes where
  routes : List Route

/-- Model of `Routes::new`. -/
def Routes.new : Routes := ⟨[]⟩

/-- Model of `Routes::get_route`: linear scan, first route whose path equals the
argument. -/
def Routes.get_route (rs : Routes) (path : String) : Option Route :=
  rs.routes.find? (fun r => r.path == path)

/-- Model of `Routes::add`: a silent no-op when the path already has a route, otherwise
push at the end. -/
def Routes.add (rs : Routes) (path : String) (f : Handler) : Routes :=
  match rs.get_route path with
  | some _ => rs
  | none => ⟨rs.routes ++ [Route.new path f]⟩

/-- Registration of a whole configuration: `Routes::add` folded over a list of
(path, handler) registrations starting from the empty table. -/
def registerAll (regs : List (String × Handler)) : Routes :=
  regs.foldl (fun rs pr => Routes.add rs pr.1 pr.2) Routes.new

/-! ### Response formatting (`src/src/connection/response.rs`) -/

/-- Model of `format_content` (lines 50–52).  The header-name spelling
`Content-Lenght` is the source's, reproduced faithfully. -/
def format_content (length : Nat) (content : String) (session_id : Nat) : String :=
  "HTTP/1.1 200 OK\r\nSet-Cookie: session_id=" ++ Nat.repr session_id ++
    "; HttpOnly\r\nContent-Lenght: " ++ Nat.repr length ++ "\r\n\r\n" ++ content

/-- Model of `error404` (lines 66–68). -/
def error404 : String :=
  "HTTP/1.1 404 NOT FOUND\r\nContent-Length: 21\r\n\r\nResource not found"

/-- Model of `redirect` (lines 155–157). -/
def redirect (route : String) : String :=
  "HTTP/1.1 302 Found\r\nLocation: " ++ route ++ "\r\n\r\n"

/-! ### The dispatcher (`src/src/connection.rs`, `RequestHandler::resolve`) -/

/-- The session-resolution expression of `RequestHandler::resolve`:
`request.session.filter(|id| sessions.contains(id)).unwrap_or_else(|| sessions.add())`,
returning the resolved id and the possibly-extended store. -/
def resolveSid (s : Sessions) (reqSession : Option Nat) : Nat × Sessions :=
  match reqSession with
  | some id => if s.contains id then (id, s) else s.add
  | none => s.add

/-- Model of `RequestHandler::resolve` (lines 64–91): route lookup, session resolution,
handler invocation and response formatting.  The value is the byte string
written to the connection paired with the resulting session store; `none`
models the panic of `Sessions::get` on a missing id. -/
def resolve (rs : Routes) (s : Sessions) (req : Request) : Option (String × Sessions) :=
  match Routes.get_route rs req.resource with
  | some route =>
    let sid := (resolveSid s req.session).1
    let s1 := (resolveSid s req.session).2
    match Sessions.get s1 sid with
    | some sess =>
      let body := (route.handler req sess).1
      let sess' := (route.handler req sess).2
      some (format_content body.utf8ByteSize body sid, Sessions.setS s1 sid sess')
    | none => none
  | none => some (error404, s)

/-- Session stores reachable by the operations the server ever performs on the
shared store: the empty store at startup, session allocation, and write-back of
a handler's mutation. -/
inductive Reach : Sessions → Prop
  | init : Reach Sessions.new
  | step_add (s : Sessions) : Reach s → Reach (Sessions.add s).2
  | step_set (s : Sessions) (id : Nat) (sess : Session) :
      Reach s → Reach (Sessions.setS s id sess)

/-! ### Spec-side definitions used to state the claims -/

/-- The path column of the route table. -/
def pathsOf (rs : Routes) : List String := rs.routes.map (fun r => r.path)

/-- The session-id extraction as the amended claim words it: the first header
line containing `session_id` is selected; the id is the portion between the
first `=` and the next `=` (or the end of line), parsed as an unsigned
integer, with the out-of-range sentinel 100000000000 substituted when the
parse fails; no such line means no session id. -/
def getSessionSpec (header : String) : Option Nat :=
  ((rustLinesC header.data).find? (fun line => hasSub line sidPat)).bind
    (fun line =>
      (afterFirstC '=' line).map
        (fun r => (parseUsizeC (r.takeWhile (fun c => c != '='))).getD 100000000000))

/-- Spec-side key of a pair: the text before the `=`. -/
def keyOfC (pair : List Char) : String :=
  String.mk (pair.takeWhile (fun c => c != '='))

/-- Spec-side value of a pair: the text after the `=`. -/
def valOfC (pair : List Char) : String :=
  String.mk ((afterFirstC '=' pair).getD [])

/-- The (key, value) pairs of a form body, read off as the spec words them. -/
def pairsOf (body : String) : List (String × String) :=
  (splitOnC '&' body.data).map (fun p => (keyOfC p, valOfC p))

/-- Last-occurrence-wins reading of a pair list. -/
def lastWins (pairs : List (String × String)) (k : String) : Option String :=
  (pairs.reverse.find? (fun q => q.1 == k)).map (fun q => q.2)

/-! ### Helper lemmas -/

theorem resolveSid_get_isSome (s : Sessions) (rid : Option Nat) :
    (Sessions.get (resolveSid s rid).2 (resolveSid s rid).1).isSome = true := by
  match rid with
  | none =>
    simp [resolveSid, Sessions.add, Sessions.get, List.find?_cons]
  | some id =>
    by_cases h : s.contains id
    · have h' : (s.sessions.find? (fun p => p.1 == id)).isSome = true := h
      obtain ⟨p, hp⟩ := Option.isSome_iff_exists.mp h'
      simp [resolveSid, h, Sessions.get, hp]
    · simp [resolveSid, h, Sessions.add, Sessions.get, List.find?_cons]

theorem splitOnC_eq_single {sep : Char} {l : List Char} (h : afterFirstC sep l = none) :
    splitOnC sep l = [l] := by
  induction l with
  | nil => rfl
  | cons c rest ih =>
    unfold afterFirstC at h
    by_cases hc : c = sep
    · simp [hc] at h
    · rw [if_neg hc] at h
      simp only [splitOnC, if_neg hc, ih h]

theorem splitPair_eq_none {pair : List Char} (h : afterFirstC '=' pair = none) :
    splitPair pair = none := by
  unfold splitPair
  rw [splitOnC_eq_single h]

theorem from_forms_go_none {ps : List (List Char)} (m : HMap)
    (h : ∃ p ∈ ps, splitPair p = none) : from_forms_go ps m = none := by
  induction ps generalizing m with
  | nil => obtain ⟨p, hp, _⟩ := h; cases hp
  | cons q ps ih =>
    obtain ⟨p, hp, hnone⟩ := h
    unfold from_forms_go
    rcases List.mem_cons.mp hp with rfl | hmem
    · rw [hnone]
    · cases hq : splitPair q with
      | none => rfl
      | some kv => exact ih _ ⟨p, hmem, hnone⟩

theorem noEq_afterFirstC {l : List Char} (h : '=' ∉ l) : afterFirstC '=' l = none := by
  induction l with
  | nil => rfl
  | cons c rest ih =>
    simp only [List.mem_cons, not_or] at h
    unfold afterFirstC
    rw [if_neg (fun e => h.1 e.symm), ih h.2]

/-! ### Claim theorems -/

/-- C2 (code bug evidence): the success response's length header is spelled
`Content-Lenght` by `format_content`, so the wire output is not the
`Content-Length: <n>` format the claim states; evaluated at body `"Hello"`
(length 5) and session id 7. -/
theorem c2_success_response_header_misspelled :
    format_content 5 "Hello" 7 =
      "HTTP/1.1 200 OK\r\nSet-Cookie: session_id=7; HttpOnly\r\nContent-Lenght: 5\r\n\r\nHello" ∧
    format_content 5 "Hello" 7 ≠
      "HTTP/1.1 200 OK\r\nSet-Cookie: session_id=7; HttpOnly\r\nContent-Length: 5\r\n\r\nHello" := by
  exact ⟨by decide, by decide⟩

/-- C3 (code bug evidence): the fixed 404 response hardcodes
`Content-Length: 21`, but its fixed body `Resource not found` is 18 bytes, so
the header does not equal the byte length of the body. -/
theorem c3_error404_content_length_mismatch :
    error404 = "HTTP/1.1 404 NOT FOUND\r\nContent-Length: 21\r\n\r\nResource not found" ∧
    ("Resource not found" : String).utf8ByteSize = 18 ∧ (18 : Nat) ≠ 21 := by
  exact ⟨rfl, by decide, by decide⟩

/-- C5: `Session.add` overwrites whatever was previously stored under the key,
regardless of its type, and `Session.get` returns the stored value exactly when
the requested type matches the stored one — a mismatch or a missing key gives
`none`, never a value of another type. -/
theorem c5_session_type_safety :
    (∀ (s : Session) (k : String) (t : Ty) (v : t.denote) (u : Ty),
      Session.get (Session.add s k ⟨t, v⟩) k u =
        if h : t = u then some (h ▸ v) else none) ∧
    (∀ (s : Session) (k : String) (u : Ty),
      (∀ p ∈ s.data, p.1 ≠ k) → Session.get s k u = none) := by
  constructor
  · intro s k t v u
    simp [Session.get, Session.add, List.find?_cons, AnyVal.downcast]
  · intro s k u h
    have hf : s.data.find? (fun p => p.1 == k) = none :=
      List.find?_eq_none.mpr (by intro x hx; simpa using h x hx)
    simp [Session.get, hf]

/-- Witness for C5: an integer stored under `"age"` requested as a string is
absent, and a missing key is absent. -/
theorem c5_session_type_safety_witness :
    Session.get (Session.add Session.new "age" ⟨Ty.nat, 30⟩) "age" Ty.str = none ∧
    Session.get Session.new "age" Ty.nat = none := by
  constructor
  · rw [c5_session_type_safety.1 Session.new "age" Ty.nat 30 Ty.str]
    rfl
  · exact c5_session_type_safety.2 Session.new "age" Ty.nat
      (by intro p hp; cases hp)

/-- C8: on a path with no registered route the dispatcher writes the fixed 404
response and returns the session store exactly as it received it. -/
theorem c8_not_found_frame (rs : Routes) (s : Sessions) (req : Request)
    (h : Routes.get_route rs req.resource = none) :
    resolve rs s req = some (error404, s) := by
  simp [resolve, h]

/-- Witness for C8: an empty route table with a populated session store. -/
theorem c8_not_found_frame_witness :
    resolve Routes.new ⟨[(0, Session.new)], 1⟩ ⟨"/x", Method.GET, "", none, some 0⟩ =
      some (error404, ⟨[(0, Session.new)], 1⟩) :=
  c8_not_found_frame Routes.new ⟨[(0, Session.new)], 1⟩
    ⟨"/x", Method.GET, "", none, some 0⟩ rfl

/-- C9: the session fetch inside the dispatcher never fails: the resolved id
is either one the store was just confirmed to contain or the id just inserted
by `Sessions.add`, so `Sessions.get` always succeeds there, and the dispatcher
as a whole never reaches the fatal lookup branch. -/
theorem c9_session_fetch_never_fails :
    (∀ (s : Sessions) (rid : Option Nat),
      (Sessions.get (resolveSid s rid).2 (resolveSid s rid).1).isSome = true) ∧
    (∀ (rs : Routes) (s : Sessions) (req : Request), (resolve rs s req).isSome = true) := by
  refine ⟨resolveSid_get_isSome, ?_⟩
  intro rs s req
  cases hr : Routes.get_route rs req.resource with
  | none => simp [resolve, hr]
  | some route =>
    obtain ⟨sess, hsess⟩ :=
      Option.isSome_iff_exists.mp (resolveSid_get_isSome s req.session)
    simp [resolve, hr, hsess]

/-- C10: `from_forms` is partial — any body in which some `&`-separated pair
contains no `=` at all (the empty string among them) hits the out-of-bounds
access on `parts[1]`, modelled here by the `none` result. -/
theorem c10_from_forms_partial :
    (∀ body : String,
      (∃ pair ∈ splitOnC '&' body.data, '=' ∉ pair) → from_forms body = none) ∧
    from_forms "" = none := by
  constructor
  · intro body ⟨pair, hmem, hno⟩
    exact from_forms_go_none []
      ⟨pair, hmem, splitPair_eq_none (noEq_afterFirstC hno)⟩
  · rfl

/-- Witness for C10: the single pair of body `"abc"` contains no `=`. -/
theorem c10_from_forms_partial_witness : from_forms "abc" = none :=
  c10_from_forms_partial.1 "abc" ⟨"abc".data, by decide, by decide⟩

/-! ### Route-table lemmas (claim C4) -/

theorem get_route_add (rs : Routes) (q p : String) (f : Handler) :
    Routes.get_route (Routes.add rs q f) p =
      match Routes.get_route rs p with
      | some r => some r
      | none => if q = p then some (Route.new q f) else none := by
  unfold Routes.add
  cases hq : Routes.get_route rs q with
  | some r0 =>
    cases hp : Routes.get_route rs p with
    | some r => simp [hp]
    | none =>
      have hqp : ¬q = p := by
        intro e; subst e; rw [hq] at hp; cases hp
      simp [hp, hqp]
  | none =>
    show Routes.get_route ⟨rs.routes ++ [Route.new q f]⟩ p = _
    unfold Routes.get_route
    simp only [List.find?_append]
    cases hp : rs.routes.find? (fun r => r.path == p) with
    | some r => simp [hp, Option.or]
    | none =>
      by_cases e : q = p
      · subst e
        simp [hp, Option.or, List.find?_cons, Route.new]
      · simp [hp, Option.or, List.find?_cons, Route.new, e]

theorem get_route_registerAll_aux (regs : List (String × Handler)) (rs : Routes)
    (p : String) :
    Routes.get_route (regs.foldl (fun a pr => Routes.add a pr.1 pr.2) rs) p =
      match Routes.get_route rs p with
      | some r => some r
      | none => (regs.find? (fun pr => pr.1 == p)).map (fun pr => Route.new p pr.2) := by
  induction regs generalizing rs with
  | nil => cases h : Routes.get_route rs p <;> simp [h]
  | cons pr regs ih =>
    rw [List.foldl_cons, ih, get_route_add]
    cases h : Routes.get_route rs p with
    | some r => simp
    | none =>
      by_cases e : pr.1 = p
      · subst e
        simp [List.find?_cons]
      · simp [List.find?_cons, e]

theorem pathsOf_add_nodup (rs : Routes) (q : String) (f : Handler)
    (h : (pathsOf rs).Nodup) : (pathsOf (Routes.add rs q f)).Nodup := by
  unfold Routes.add
  cases hq : Routes.get_route rs q with
  | some r => exact h
  | none =>
    have hq' : q ∉ pathsOf rs := by
      intro hmem
      obtain ⟨r, hr, e⟩ := List.mem_map.mp hmem
      have hne := List.find?_eq_none.mp hq r hr
      simp [e] at hne
    have hpaths : pathsOf ⟨rs.routes ++ [Route.new q f]⟩ = pathsOf rs ++ [q] := by
      simp [pathsOf, Route.new]
    show (pathsOf ⟨rs.routes ++ [Route.new q f]⟩).Nodup
    rw [hpaths, List.nodup_append]
    refine ⟨h, List.nodup_singleton q, ?_⟩
    intro a ha hb
    rw [List.mem_singleton.mp hb] at ha
    exact hq' ha

theorem registerAll_nodup_aux (regs : List (String × Handler)) (rs : Routes)
    (h : (pathsOf rs).Nodup) :
    (pathsOf (regs.foldl (fun a pr => Routes.add a pr.1 pr.2) rs)).Nodup := by
  induction regs generalizing rs with
  | nil => exact h
  | cons pr regs ih => exact ih _ (pathsOf_add_nodup rs pr.1 pr.2 h)

/-- C4: registering a path that already has a route is a silent no-op, the
table reached by any sequence of registrations has at most one route per
distinct path, and lookup returns the handler supplied by the first
registration of the path, never a later one. -/
theorem c4_route_first_registration_wins :
    (∀ (rs : Routes) (p : String) (f : Handler),
      (Routes.get_route rs p).isSome = true → Routes.add rs p f = rs) ∧
    (∀ regs : List (String × Handler), (pathsOf (registerAll regs)).Nodup) ∧
    (∀ (regs : List (String × Handler)) (p : String),
      Routes.get_route (registerAll regs) p =
        (regs.find? (fun pr => pr.1 == p)).map (fun pr => Route.new p pr.2)) := by
  refine ⟨?_, ?_, ?_⟩
  · intro rs p f h
    unfold Routes.add
    cases hq : Routes.get_route rs p with
    | some r => rfl
    | none => rw [hq] at h; cases h
  · intro regs
    exact registerAll_nodup_aux regs Routes.new (by simp [pathsOf, Routes.new])
  · intro regs p
    have h := get_route_registerAll_aux regs Routes.new p
    simpa [Routes.new, Routes.get_route, registerAll] using h

/-- Witness for C4: re-registering `"/"` with a second handler leaves the
table untouched. -/
theorem c4_route_first_registration_wins_witness :
    Routes.add ⟨[Route.new "/" (fun _ t => ("first", t))]⟩ "/"
        (fun _ t => ("second", t)) =
      ⟨[Route.new "/" (fun _ t => ("first", t))]⟩ :=
  c4_route_first_registration_wins.1 ⟨[Route.new "/" (fun _ t => ("first", t))]⟩
    "/" (fun _ t => ("second", t)) rfl

/-! ### Session-store invariant lemmas (claim C1) -/

theorem replaceSession_keys (l : List (Nat × Session)) (id : Nat) (v : Session) :
    ∀ p ∈ replaceSession l id v, ∃ q ∈ l, p.1 = q.1 := by
  induction l with
  | nil => intro p hp; cases hp
  | cons q0 rest ih =>
    intro p hp
    unfold replaceSession at hp
    by_cases h : (q0.1 == id) = true
    · rw [if_pos h] at hp
      rcases List.mem_cons.mp hp with rfl | hmem
      · exact ⟨q0, List.mem_cons_self q0 rest, (beq_iff_eq.mp h).symm⟩
      · exact ⟨p, List.mem_cons_of_mem _ hmem, rfl⟩
    · rw [if_neg h] at hp
      rcases List.mem_cons.mp hp with rfl | hmem
      · exact ⟨p, List.mem_cons_self p rest, rfl⟩
      · obtain ⟨q, hq, e⟩ := ih p hmem
        exact ⟨q, List.mem_cons_of_mem _ hq, e⟩

theorem reach_keys_lt {s : Sessions} (h : Reach s) :
    ∀ p ∈ s.sessions, p.1 < s.counter := by
  induction h with
  | init => intro p hp; cases hp
  | step_add t ht ih =>
    intro p hp
    simp only [Sessions.add] at hp ⊢
    rcases List.mem_cons.mp hp with rfl | hmem
    · exact Nat.lt_succ_self t.counter
    · exact Nat.lt_succ_of_lt (ih p hmem)
  | step_set t id sess ht ih =>
    intro p hp
    simp only [Sessions.setS] at hp ⊢
    obtain ⟨q, hq, e⟩ := replaceSession_keys t.sessions id sess p hp
    rw [e]
    exact ih q hq

theorem contains_counter_false {s : Sessions}
    (h : ∀ p ∈ s.sessions, p.1 < s.counter) :
    Sessions.contains s s.counter = false := by
  have hf : s.sessions.find? (fun p => p.1 == s.counter) = none := by
    apply List.find?_eq_none.mpr
    intro p hp hbeq
    have e : p.1 = s.counter := by simpa using hbeq
    have := h p hp
    omega
  simp [Sessions.contains, hf]

theorem get_of_contains {s : Sessions} {id : Nat}
    (h : Sessions.contains s id = true) :
    ∃ sess, Sessions.get s id = some sess := by
  unfold Sessions.contains at h
  obtain ⟨p, hp⟩ := Option.isSome_iff_exists.mp h
  exact ⟨p.2, by simp [Sessions.get, hp]⟩

/-- C1: with a registered route, a request carrying a session id the store
contains runs the handler against that stored session and echoes the same id
in the formatted response; a request with no id, or an unknown id, gets a
fresh session whose id (the counter) is strictly greater than, and distinct
from, every previously issued id, and that fresh id is echoed. -/
theorem c1_session_resolution (rs : Routes) (s : Sessions) (req : Request)
    (route : Route) (hr : Routes.get_route rs req.resource = some route)
    (hR : Reach s) :
    (∀ id : Nat, req.session = some id → Sessions.contains s id = true →
      ∃ sess s₂, Sessions.get s id = some sess ∧
        resolve rs s req =
          some (format_content (route.handler req sess).1.utf8ByteSize
            (route.handler req sess).1 id, s₂)) ∧
    ((req.session = none ∨
        ∃ id : Nat, req.session = some id ∧ Sessions.contains s id = false) →
      (∀ p ∈ s.sessions, p.1 < s.counter) ∧
      Sessions.contains s s.counter = false ∧
      ∃ s₂, resolve rs s req =
        some (format_content (route.handler req Session.new).1.utf8ByteSize
          (route.handler req Session.new).1 s.counter, s₂)) := by
  constructor
  · intro id hid hc
    obtain ⟨sess, hget⟩ := get_of_contains hc
    have hsid : resolveSid s req.session = (id, s) := by
      rw [hid]; simp [resolveSid, hc]
    refine ⟨sess, Sessions.setS s id (route.handler req sess).2, hget, ?_⟩
    simp [resolve, hr, hsid, hget]
  · intro hcase
    have hkeys := reach_keys_lt hR
    have hcf := contains_counter_false hkeys
    have hsid : resolveSid s req.session = Sessions.add s := by
      rcases hcase with hnone | ⟨id, hid, hcfid⟩
      · rw [hnone]; rfl
      · rw [hid]; simp [resolveSid, hcfid]
    refine ⟨hkeys, hcf,
      Sessions.setS (Sessions.add s).2 s.counter (route.handler req Session.new).2, ?_⟩
    simp [resolve, hr, hsid, Sessions.add, Sessions.get, List.find?_cons,
      Sessions.setS]

/-- Witness for C1: a one-route table and the store holding the single session
issued at startup; the request carries that session's id (0) and gets it
echoed. -/
theorem c1_session_resolution_witness :
    ∃ sess s₂,
      Sessions.get (Sessions.add Sessions.new).2 0 = some sess ∧
      resolve ⟨[Route.new "/" (fun _ t => ("hi", t))]⟩ (Sessions.add Sessions.new).2
          ⟨"/", Method.GET, "", none, some 0⟩ =
        some (format_content
          ((Route.new "/" (fun _ t => ("hi", t))).handler
              ⟨"/", Method.GET, "", none, some 0⟩ sess).1.utf8ByteSize
          ((Route.new "/" (fun _ t => ("hi", t))).handler
              ⟨"/", Method.GET, "", none, some 0⟩ sess).1 0, s₂) :=
  (c1_session_resolution ⟨[Route.new "/" (fun _ t => ("hi", t))]⟩
      (Sessions.add Sessions.new).2 ⟨"/", Method.GET, "", none, some 0⟩
      (Route.new "/" (fun _ t => ("hi", t))) rfl
      (Reach.step_add Sessions.new Reach.init)).1 0 rfl rfl

/-! ### Structure of `splitOnC` (claims C6 and C7) -/

theorem splitOnC_first (sep : Char) (l : List Char) :
    splitOnC sep l =
      match afterFirstC sep l with
      | none => [l]
      | some r => l.takeWhile (fun c => c != sep) :: splitOnC sep r := by
  induction l with
  | nil => rfl
  | cons c rest ih =>
    by_cases hc : c = sep
    · subst hc
      simp [splitOnC, afterFirstC, List.takeWhile_cons]
    · have ha : afterFirstC sep (c :: rest) = afterFirstC sep rest := if_neg hc
      cases h : afterFirstC sep rest with
      | none =>
        have hrest : splitOnC sep rest = [rest] := by rw [ih, h]
        simp only [splitOnC, if_neg hc, hrest, ha, h]
      | some r =>
        have hrest :
            splitOnC sep rest = rest.takeWhile (fun c => c != sep) :: splitOnC sep r := by
          rw [ih, h]
        simp only [splitOnC, if_neg hc, hrest, ha, h]
        simp [List.takeWhile_cons, hc]

theorem splitOnC_of_afterFirst_some {sep : Char} {l r : List Char}
    (h : afterFirstC sep l = some r) :
    splitOnC sep l = l.takeWhile (fun c => c != sep) :: splitOnC sep r := by
  rw [splitOnC_first, h]

theorem takeWhile_of_afterFirst_none {sep : Char} {l : List Char}
    (h : afterFirstC sep l = none) : l.takeWhile (fun c => c != sep) = l := by
  induction l with
  | nil => rfl
  | cons c rest ih =>
    unfold afterFirstC at h
    by_cases hc : c = sep
    · rw [if_pos hc] at h; cases h
    · rw [if_neg hc] at h
      simp [List.takeWhile_cons, hc, ih h]

theorem splitOnC_head (sep : Char) (l : List Char) :
    (splitOnC sep l).head? = some (l.takeWhile (fun c => c != sep)) := by
  rw [splitOnC_first]
  cases h : afterFirstC sep l with
  | none => simp [takeWhile_of_afterFirst_none h]
  | some r => rfl

/-! ### Session-id extraction (claim C7) -/

theorem sessionOfLine_eq (line : List Char) :
    sessionOfLine line =
      (afterFirstC '=' line).map
        (fun r => (parseUsizeC (r.takeWhile (fun c => c != '='))).getD 100000000000) := by
  unfold sessionOfLine
  cases h : afterFirstC '=' line with
  | none => rw [splitOnC_eq_single h]; rfl
  | some r =>
    rw [splitOnC_of_afterFirst_some h]
    have hh := splitOnC_head '=' r
    cases hr : splitOnC '=' r with
    | nil => rw [hr] at hh; cases hh
    | cons portion t =>
      rw [hr] at hh
      have : portion = r.takeWhile (fun c => c != '=') := by
        simpa using hh
      rw [this]
      rfl

theorem get_session_go_eq (ls : List (List Char)) :
    get_session_go ls = (ls.find? (fun line => hasSub line sidPat)).bind sessionOfLine := by
  induction ls with
  | nil => rfl
  | cons line rest ih =>
    cases h : hasSub line sidPat with
    | true => simp [get_session_go, h, List.find?_cons]
    | false => simp [get_session_go, h, List.find?_cons, ih]

/-- C7 (amended): session-id extraction is total; it scans for the first line
containing `session_id` and parses the portion between the first and second
`=` (not everything after the first `=`), substituting the sentinel
100000000000 for a present-but-malformed portion and yielding no id when no
line matches. -/
theorem c7_get_session_second_field (header : String) :
    Request.get_session header = getSessionSpec header := by
  unfold Request.get_session getSessionSpec
  rw [get_session_go_eq]
  cases h : (rustLinesC header.data).find? (fun line => hasSub line sidPat) with
  | none => rfl
  | some line => simp [sessionOfLine_eq]

/-- Counterexample for C7 as stated: on the header line
`Cookie: session_id=5=6` the portion after the first `=` is `5=6`, which is
malformed, so the stated behavior would produce the sentinel 100000000000;
the code parses only the field between the two `=` and returns 5. -/
theorem c7_portion_after_first_eq_refuted :
    Request.get_session "Cookie: session_id=5=6" = some 5 ∧
    (afterFirstC '=' ("Cookie: session_id=5=6".data)).map
        (fun portion => (parseUsizeC portion).getD 100000000000) =
      some 100000000000 ∧
    (5 : Nat) ≠ 100000000000 := by
  refine ⟨by decide, by decide, by decide⟩

/-! ### Form decoding under well-formed pairs (claim C6) -/

theorem countP_one_afterFirst {sep : Char} {l : List Char}
    (h : l.countP (fun c => c == sep) = 1) :
    ∃ r, afterFirstC sep l = some r ∧ r.countP (fun c => c == sep) = 0 := by
  induction l with
  | nil => simp [List.countP_nil] at h
  | cons c rest ih =>
    by_cases hc : c = sep
    · subst hc
      rw [List.countP_cons_of_pos _ _ (by simp)] at h
      refine ⟨rest, ?_, by omega⟩
      unfold afterFirstC; rw [if_pos rfl]
    · rw [List.countP_cons_of_neg _ _ (by simp [hc])] at h
      obtain ⟨r, hr, h0⟩ := ih h
      exact ⟨r, by unfold afterFirstC; rw [if_neg hc]; exact hr, h0⟩

theorem countP_zero_afterFirst {sep : Char} {l : List Char}
    (h : l.countP (fun c => c == sep) = 0) : afterFirstC sep l = none := by
  induction l with
  | nil => rfl
  | cons c rest ih =>
    by_cases hc : c = sep
    · subst hc
      rw [List.countP_cons_of_pos _ _ (by simp)] at h
      omega
    · rw [List.countP_cons_of_neg _ _ (by simp [hc])] at h
      unfold afterFirstC; rw [if_neg hc]; exact ih h

theorem splitPair_of_one_eq {pair : List Char}
    (h : pair.countP (fun c => c == '=') = 1) :
    splitPair pair = some (keyOfC pair, valOfC pair) := by
  obtain ⟨r, hr, h0⟩ := countP_one_afterFirst h
  have hsplit : splitOnC '=' pair = pair.takeWhile (fun c => c != '=') :: [r] := by
    rw [splitOnC_of_afterFirst_some hr,
      splitOnC_eq_single (countP_zero_afterFirst h0)]
  unfold splitPair keyOfC valOfC
  rw [hsplit, hr]
  rfl

theorem from_forms_go_all (ps : List (List Char)) (m : HMap)
    (h : ∀ p ∈ ps, p.countP (fun c => c == '=') = 1) :
    from_forms_go ps m =
      some ((ps.map (fun p => (keyOfC p, valOfC p))).reverse ++ m) := by
  induction ps generalizing m with
  | nil => simp [from_forms_go]
  | cons p ps ih =>
    have hp := h p (List.mem_cons_self p ps)
    unfold from_forms_go
    rw [splitPair_of_one_eq hp]
    show from_forms_go ps (HMap.insertKV m (keyOfC p) (valOfC p)) = _
    rw [ih _ (fun q hq => h q (List.mem_cons_of_mem _ hq))]
    simp [HMap.insertKV, List.reverse_cons, List.append_assoc]

/-- C6: when every `&`-separated pair of the body contains exactly one `=`,
`from_forms` succeeds and maps each pair's key (text before the `=`) to its
value (text after the `=`), with the last occurrence winning on duplicate
keys; in particular `from_forms "a=1&b=2"` gives `a ↦ "1", b ↦ "2"` and
`from_forms "a=1"` gives `a ↦ "1"`. -/
theorem c6_from_forms_mapping :
    (∀ body : String,
      (∀ pair ∈ splitOnC '&' body.data, pair.countP (fun c => c == '=') = 1) →
      ∃ m, from_forms body = some m ∧
        ∀ k, HMap.findV m k = lastWins (pairsOf body) k) ∧
    (from_forms "a=1&b=2").map
        (fun m => (HMap.findV m "a", HMap.findV m "b")) =
      some (some "1", some "2") ∧
    (from_forms "a=1").map (fun m => HMap.findV m "a") = some (some "1") := by
  refine ⟨?_, by decide, by decide⟩
  intro body h
  refine ⟨(pairsOf body).reverse, ?_, fun k => rfl⟩
  unfold from_forms
  rw [from_forms_go_all _ _ h]
  simp [pairsOf]

/-- Witness for C6: the general mapping statement applied to `"a=1&b=2"`. -/
theorem c6_from_forms_mapping_witness :
    ∃ m, from_forms "a=1&b=2" = some m ∧
      ∀ k, HMap.findV m k = lastWins (pairsOf "a=1&b=2") k :=
  c6_from_forms_mapping.1 "a=1&b=2" (by decide)

end WebFramework
